import Mathlib

/-!
Shallow embedding of the `oof` schema resolution and validation pipeline
(`src/schemas/system.rs`): the schema version dispatcher, the metadata
parser, the `using` source-table resolver and the `extends` inheritance
resolver, together with the structured error taxonomy they return.

The external document reader (the `over` crate) is modelled at its
boundary only: a document is a tree of objects (ordered field lists),
arrays, strings, booleans, integers and nulls, with fallible typed
accessors mirroring `get_obj` / `get_str` / `get_bool` / `get_arr`.
Rust's `Result<T, E>` becomes `Except E T`; accessor `Result`s whose
error is discarded by the code become `Option`.
-/

namespace Oof

/-- A value of the generic document tree, mirroring the `over` crate's
value variants used by the pipeline. Objects keep their fields as an
ordered association list. -/
inductive OverValue where
  | Str : String → OverValue
  | Boolean : Bool → OverValue
  | Int : Int → OverValue
  | Obj : List (String × OverValue) → OverValue
  | Arr : List OverValue → OverValue
  | Null : OverValue
deriving Repr

/-- The field list of a document object. -/
abbrev Fields := List (String × OverValue)

/-- Field lookup in an object, first match wins. -/
def lookupField : Fields → String → Option OverValue
  | [], _ => none
  | (k', v) :: rest, k => if k' = k then some v else lookupField rest k

/-- `Value::get_obj`: view a value as an object, failing otherwise. -/
def asObj : OverValue → Option Fields
  | .Obj fields => some fields
  | _ => none

/-- `Value::get_str`: view a value as a string, failing otherwise. -/
def asStr : OverValue → Option String
  | .Str s => some s
  | _ => none

/-- `Value::get_bool`: view a value as a boolean, failing otherwise. -/
def asBool : OverValue → Option Bool
  | .Boolean b => some b
  | _ => none

/-- `Value::get_arr`: view a value as an array, failing otherwise. -/
def asArr : OverValue → Option (List OverValue)
  | .Arr elems => some elems
  | _ => none

/-- `Obj::get_obj(&key)`: fails when the field is absent or not an object. -/
def get_obj (o : Fields) (k : String) : Option Fields :=
  (lookupField o k).bind asObj

/-- `Obj::get_str(&key)`: fails when the field is absent or not a string. -/
def get_str (o : Fields) (k : String) : Option String :=
  (lookupField o k).bind asStr

/-- `Obj::get_bool(&key)`: fails when the field is absent or not a boolean. -/
def get_bool (o : Fields) (k : String) : Option Bool :=
  (lookupField o k).bind asBool

/-- `Obj::get_arr(&key)`: fails when the field is absent or not an array. -/
def get_arr (o : Fields) (k : String) : Option (List OverValue) :=
  (lookupField o k).bind asArr

/-- `str::to_lowercase`, restricted to its ASCII behavior: the only
strings the pipeline compares a lowercased value against are ASCII
literals, on which Rust's full Unicode lowering and the per-character
ASCII lowering agree. -/
def lowercase (s : String) : String := ⟨s.data.map Char.toLower⟩

/-! ### Error taxonomy and data model (`system.rs` lines 10-142) -/

def COULD_NOT_BE_PARSED_AS_STRING : String := "could not be parsed as a String"
def COULD_NOT_BE_PARSED_AS_OBJ : String := "could not be parsed as an Object"
def COULD_NOT_BE_PARSED_AS_ARR : String := "could not be parsed as a homogenous Array"
def COULD_NOT_DETERMINE_REPO_TYPE : String := "could not determine repo type (eg. git)"
def MAINTAINER_OR_HOMEPAGE_REQUIRED : String :=
  "meta.maintainer and/or meta.homepage is required"

/-- `SchemaParsingError`: the closed error taxonomy of the pipeline. -/
inductive SchemaParsingError where
  | Generic : String → SchemaParsingError
  | MissingOofInstruction : SchemaParsingError
  | MalformedOofInstruction : (field_name : String) → (problem : String) → SchemaParsingError
  | UnsupportedSchemaType : String → SchemaParsingError
  | UnsupportedSchemaVersion :
      (schema_type : String) → (requested_version : String) → SchemaParsingError
  | ExtendingNonExistantRepo : String → SchemaParsingError
deriving Repr, DecidableEq

/-- `OofFileSchema`: the recognized (kind, version) pairs. -/
inductive OofFileSchema where
  | System20210801 : OofFileSchema
deriving Repr, DecidableEq

/-- `OofFileMetaMaintainer`. -/
structure OofFileMetaMaintainer where
  name : String
  contact : Option String
deriving Repr, DecidableEq

/-- `OofFileLicense`. -/
inductive OofFileLicense where
  | Restricted : OofFileLicense
  | SPDXIdentifier : String → OofFileLicense
deriving Repr, DecidableEq

/-- `OofFileMeta`. -/
structure OofFileMeta where
  maintainer : Option OofFileMetaMaintainer
  homepage : Option String
  license : OofFileLicense
deriving Repr, DecidableEq

/-- `OofFile`: the value `from_over_obj` would produce on success. -/
structure OofFile where
  schema : OofFileSchema
  meta : OofFileMeta
deriving Repr, DecidableEq

/-- `Executable`. -/
inductive Executable where
  | Discoverable : String → Executable
  | UserProvided : String → Executable
deriving Repr, DecidableEq

/-- `Using`: a source binding of the `using` table. -/
inductive Using where
  | Git : (upstream : String) → (rev : Option String) → (shallow : Bool) →
      (bin : Executable) → Using
deriving Repr, DecidableEq

/-- `UsingMap = HashMap<String, Using>`, modelled as an association list
with `insert` overwriting in place (last write wins). -/
abbrev UsingMap := List (String × Using)

/-- `HashMap::insert`: overwrite the binding when the key is present,
append it otherwise. -/
def umInsert : UsingMap → String → Using → UsingMap
  | [], k, v => [(k, v)]
  | (k', v') :: rest, k, v =>
    if k' = k then (k, v) :: rest else (k', v') :: umInsert rest k v

/-- `HashMap::get`: look a key up in the table. -/
def umFind : UsingMap → String → Option Using
  | [], _ => none
  | (k', v) :: rest, k => if k' = k then some v else umFind rest k

/-- `Extends`: a resolved inheritance declaration. The Rust record keeps a
non-owning `&Using` reference into the table; the embedding stores the
referenced binding itself. -/
structure Extends where
  repo : Using
  path : String
  pick : Option (List String)
  «omit» : Option (List String)
deriving Repr, DecidableEq

/-! ### The pipeline (`system.rs` lines 270-516) -/

/-- `parse_oof_schema_type` (`system.rs:320`): the schema version
dispatcher. -/
def parse_oof_schema_type (oof : Fields) : Except SchemaParsingError OofFileSchema :=
  match get_obj oof "schema" with
  | some schema =>
    match get_str schema "type" with
    | some schema_type =>
      if schema_type = "system" then
        match get_str schema "version" with
        | some version =>
          if version = "2021.08.01" then
            .ok .System20210801
          else
            .error (.UnsupportedSchemaVersion schema_type version)
        | none =>
          .error (.MalformedOofInstruction "oof.schema.version" COULD_NOT_BE_PARSED_AS_STRING)
      else
        .error (.UnsupportedSchemaType schema_type)
    | none =>
      .error (.MalformedOofInstruction "oof.schema.type" COULD_NOT_BE_PARSED_AS_STRING)
  | none =>
    .error (.MalformedOofInstruction "oof.schema" COULD_NOT_BE_PARSED_AS_OBJ)

/-- `parse_oof_meta_maintainer` (`system.rs:389`). -/
def parse_oof_meta_maintainer (meta : Fields) :
    Except SchemaParsingError OofFileMetaMaintainer :=
  match get_obj meta "maintainer" with
  | some maintainer =>
    match get_str maintainer "name" with
    | some maintainer_name =>
      .ok { name := maintainer_name, contact := get_str maintainer "contact" }
    | none =>
      .error (.MalformedOofInstruction "meta.maintainer.name" COULD_NOT_BE_PARSED_AS_STRING)
  | none =>
    .error (.MalformedOofInstruction "meta.maintainer" COULD_NOT_BE_PARSED_AS_OBJ)

/-- `parse_oof_meta` (`system.rs:351`): the metadata parser. The final
branch reports `COULD_NOT_BE_PARSED_AS_STRING` for a missing/non-object
`meta` block, exactly as the source does at `system.rs:384`. -/
def parse_oof_meta (oof : Fields) : Except SchemaParsingError OofFileMeta :=
  match get_obj oof "meta" with
  | some meta =>
    let maintainer := parse_oof_meta_maintainer meta
    let homepage := get_str meta "homepage"
    if maintainer.toOption.isNone && homepage.isNone then
      .error (.MalformedOofInstruction "oof.meta.maintainer" MAINTAINER_OR_HOMEPAGE_REQUIRED)
    else
      match get_str meta "license" with
      | some license =>
        let lowercased_license := lowercase license
        .ok { maintainer := maintainer.toOption
              homepage := homepage
              license :=
                if lowercased_license = "restricted" ∨ lowercased_license = "proprietary" then
                  .Restricted
                else
                  .SPDXIdentifier license }
      | none =>
        .error (.MalformedOofInstruction "oof.meta.license" COULD_NOT_BE_PARSED_AS_STRING)
  | none =>
    .error (.MalformedOofInstruction "oof.meta" COULD_NOT_BE_PARSED_AS_STRING)

/-- The loop body of `parse_using` (`system.rs:416-439`), folded over the
entries of the `using` object in order with the table built so far. -/
def parse_using_entries : List (String × OverValue) → UsingMap →
    Except SchemaParsingError UsingMap
  | [], acc => .ok acc
  | (repo, cfg) :: rest, acc =>
    match asObj cfg with
    | some config_obj =>
      match get_str config_obj "git" with
      | some git =>
        parse_using_entries rest
          (umInsert acc repo
            (.Git git (get_str config_obj "rev")
              ((get_bool config_obj "shallow").getD false)
              (match get_str config_obj "bin" with
                | some bin => .UserProvided bin
                | none => .Discoverable "git")))
      | none =>
        .error (.MalformedOofInstruction ("using." ++ repo) COULD_NOT_DETERMINE_REPO_TYPE)
    | none =>
      .error (.MalformedOofInstruction ("using." ++ repo) COULD_NOT_DETERMINE_REPO_TYPE)

/-- `parse_using` (`system.rs:411`): the source-table resolver. -/
def parse_using (config : Fields) : Except SchemaParsingError UsingMap :=
  match get_obj config "using" with
  | some usingFields => parse_using_entries usingFields []
  | none =>
    .error (.MalformedOofInstruction "using" COULD_NOT_BE_PARSED_AS_OBJ)

/-- `objs.iter().map(|obj| obj.get_str()).collect()` over `Option`: all
elements must be strings for the whole list to collect. -/
def collectStrs : List OverValue → Option (List String)
  | [] => some []
  | v :: rest =>
    match asStr v with
    | some s => (collectStrs rest).map (s :: ·)
    | none => none

/-- The body of the `parse_extends` loop (`system.rs:458-506`) for the
element at index `idx`. -/
def parse_extends_entry (idx : Nat) (eraw : OverValue) (um : UsingMap) :
    Except SchemaParsingError Extends :=
  match asObj eraw with
  | none =>
    .error (.MalformedOofInstruction ("extends[" ++ toString idx ++ "]")
      COULD_NOT_BE_PARSED_AS_OBJ)
  | some eobj =>
    match get_str eobj "repo" with
    | none =>
      .error (.MalformedOofInstruction ("extends[" ++ toString idx ++ "].repo")
        COULD_NOT_BE_PARSED_AS_STRING)
    | some repo =>
      match umFind um repo with
      | none => .error (.ExtendingNonExistantRepo repo)
      | some u =>
        match get_str eobj "path" with
        | none =>
          .error (.MalformedOofInstruction ("extends[" ++ toString idx ++ "].path")
            COULD_NOT_BE_PARSED_AS_STRING)
        | some path =>
          .ok { repo := u
                path := path
                pick := (get_arr eobj "pick").bind collectStrs
                «omit» := (get_arr eobj "omit").bind collectStrs }

/-- The `parse_extends` loop over the array elements starting at index
`idx`, accumulating the parsed declarations in order. -/
def parse_extends_list (idx : Nat) (elems : List OverValue) (um : UsingMap) :
    Except SchemaParsingError (List Extends) :=
  match elems with
  | [] => .ok []
  | e :: rest =>
    match parse_extends_entry idx e um with
    | .error err => .error err
    | .ok record =>
      match parse_extends_list (idx + 1) rest um with
      | .error err => .error err
      | .ok records => .ok (record :: records)

/-- `parse_extends` (`system.rs:450`): the inheritance resolver. -/
def parse_extends (config : Fields) (um : UsingMap) :
    Except SchemaParsingError (List Extends) :=
  match get_arr config "extends" with
  | some elems => parse_extends_list 0 elems um
  | none =>
    .error (.MalformedOofInstruction "extends" COULD_NOT_BE_PARSED_AS_ARR)

/-- `from_over_obj` (`system.rs:270`): the whole compilation pipeline.
Diagnostic `eprintln!` calls and the hard-coded `target` block have no
bearing on the returned value and are not modelled. -/
def from_over_obj (obj : Fields) : Except SchemaParsingError OofFile :=
  match get_obj obj "oof" with
  | none => .error .MissingOofInstruction
  | some oof_instruction_obj =>
    match parse_oof_schema_type oof_instruction_obj with
    | .error e => .error e
    | .ok _oof_schema =>
      match parse_oof_meta oof_instruction_obj with
      | .error e => .error e
      | .ok _oof_meta =>
        match parse_using obj with
        | .error e => .error e
        | .ok usingTbl =>
          match parse_extends obj usingTbl with
          | .error e => .error e
          | .ok _oof_extends => .error (.Generic "rest not implemented")

/-! ### Stage-propagation lemmas: `from_over_obj` is a fail-fast chain. -/

theorem fromOverObj_err_of_schema_err {doc oof : Fields} {e : SchemaParsingError}
    (hoof : get_obj doc "oof" = some oof)
    (hs : parse_oof_schema_type oof = .error e) :
    from_over_obj doc = .error e := by
  simp [from_over_obj, hoof, hs]

theorem fromOverObj_err_of_meta_err {doc oof : Fields} {s : OofFileSchema}
    {e : SchemaParsingError}
    (hoof : get_obj doc "oof" = some oof)
    (hs : parse_oof_schema_type oof = .ok s)
    (hm : parse_oof_meta oof = .error e) :
    from_over_obj doc = .error e := by
  simp [from_over_obj, hoof, hs, hm]

theorem fromOverObj_err_of_using_err {doc oof : Fields} {s : OofFileSchema}
    {m : OofFileMeta} {e : SchemaParsingError}
    (hoof : get_obj doc "oof" = some oof)
    (hs : parse_oof_schema_type oof = .ok s)
    (hm : parse_oof_meta oof = .ok m)
    (hu : parse_using doc = .error e) :
    from_over_obj doc = .error e := by
  simp [from_over_obj, hoof, hs, hm, hu]

theorem fromOverObj_err_of_extends_err {doc oof : Fields} {s : OofFileSchema}
    {m : OofFileMeta} {um : UsingMap} {e : SchemaParsingError}
    (hoof : get_obj doc "oof" = some oof)
    (hs : parse_oof_schema_type oof = .ok s)
    (hm : parse_oof_meta oof = .ok m)
    (hu : parse_using doc = .ok um)
    (hx : parse_extends doc um = .error e) :
    from_over_obj doc = .error e := by
  simp [from_over_obj, hoof, hs, hm, hu, hx]

/-! ### Claim theorems -/

/-- C1: when the schema block is object-shaped and `schema.type` reads as a
string `t`, compilation fails with `UnsupportedSchemaType t` whenever
`t ≠ "system"`; and when `t = "system"` and `schema.version` reads as a
string `v ≠ "2021.08.01"`, it fails with
`UnsupportedSchemaVersion "system" v`. The two conditions use the two
distinct constructors, and neither is a `MalformedOofInstruction`. -/
theorem C1_dispatcher_unsupported_type_and_version
    (doc oof schema : Fields) (t : String)
    (hoof : get_obj doc "oof" = some oof)
    (hschema : get_obj oof "schema" = some schema)
    (ht : get_str schema "type" = some t) :
    (t ≠ "system" → from_over_obj doc = .error (.UnsupportedSchemaType t)) ∧
    (∀ v : String, t = "system" → get_str schema "version" = some v →
      v ≠ "2021.08.01" →
      from_over_obj doc = .error (.UnsupportedSchemaVersion "system" v)) := by
  constructor
  · intro hne
    apply fromOverObj_err_of_schema_err hoof
    simp [parse_oof_schema_type, hschema, ht, hne]
  · intro v hsys hv hvne
    subst hsys
    apply fromOverObj_err_of_schema_err hoof
    simp [parse_oof_schema_type, hschema, ht, hv, hvne]

def badTypeDoc : Fields :=
  [("oof", .Obj [("schema", .Obj [("type", .Str "network")])])]

def badVersionDoc : Fields :=
  [("oof", .Obj [("schema", .Obj
    [("type", .Str "system"), ("version", .Str "2021.09.01")])])]

theorem C1_dispatcher_witness :
    from_over_obj badTypeDoc = .error (.UnsupportedSchemaType "network") ∧
    from_over_obj badVersionDoc =
      .error (.UnsupportedSchemaVersion "system" "2021.09.01") :=
  ⟨(C1_dispatcher_unsupported_type_and_version badTypeDoc _ _ "network"
      rfl rfl rfl).1 (by decide),
   (C1_dispatcher_unsupported_type_and_version badVersionDoc _ _ "system"
      rfl rfl rfl).2 "2021.09.01" rfl rfl (by decide)⟩

/-- C3: `from_over_obj` always returns an error; in particular a document
that passes the dispatcher, metadata, source-table and inheritance stages
still yields `Generic "rest not implemented"`, so no compiled
configuration value is ever produced. -/
theorem C3_pipeline_never_ok :
    (∀ doc : Fields, ∃ e : SchemaParsingError, from_over_obj doc = .error e) ∧
    (∀ (doc oof : Fields) (s : OofFileSchema) (m : OofFileMeta)
        (um : UsingMap) (ex : List Extends),
      get_obj doc "oof" = some oof →
      parse_oof_schema_type oof = .ok s →
      parse_oof_meta oof = .ok m →
      parse_using doc = .ok um →
      parse_extends doc um = .ok ex →
      from_over_obj doc = .error (.Generic "rest not implemented")) := by
  constructor
  · intro doc
    unfold from_over_obj
    repeat' split
    all_goals exact ⟨_, rfl⟩
  · intro doc oof s m um ex hoof hs hm hu hx
    simp [from_over_obj, hoof, hs, hm, hu, hx]

def goodDoc : Fields :=
  [("oof", .Obj
      [("schema", .Obj [("type", .Str "system"), ("version", .Str "2021.08.01")]),
       ("meta", .Obj [("homepage", .Str "https://example.org"), ("license", .Str "MIT")])]),
   ("using", .Obj [("origin", .Obj [("git", .Str "https://example/repo")])]),
   ("extends", .Arr [])]

theorem C3_pipeline_witness :
    from_over_obj goodDoc = .error (.Generic "rest not implemented") :=
  C3_pipeline_never_ok.2 goodDoc _ _ _ _ _ rfl rfl rfl rfl rfl

def missingMetaDoc : Fields :=
  [("oof", .Obj
      [("schema", .Obj [("type", .Str "system"), ("version", .Str "2021.08.01")])]),
   ("using", .Obj []),
   ("extends", .Arr [])]

/-- C4: on a document whose instruction block has no object-shaped `meta`
sub-block, the code fails with field `"oof.meta"` but with the
not-a-string problem code, not the not-an-object one: `system.rs:384`
reuses `COULD_NOT_BE_PARSED_AS_STRING` where every other failed `get_obj`
in the file reports `COULD_NOT_BE_PARSED_AS_OBJ`. -/
theorem C4_missing_meta_reports_string_problem :
    from_over_obj missingMetaDoc =
      .error (.MalformedOofInstruction "oof.meta" COULD_NOT_BE_PARSED_AS_STRING) ∧
    COULD_NOT_BE_PARSED_AS_STRING ≠ COULD_NOT_BE_PARSED_AS_OBJ :=
  ⟨rfl, by decide⟩

/-- C5: when the instruction block has an object-shaped `meta` block in
which neither the maintainer object nor a string homepage parses,
compilation fails with `MalformedOofInstruction "oof.meta.maintainer"
MAINTAINER_OR_HOMEPAGE_REQUIRED`; no hypothesis constrains the `license`
field, so the failure is independent of license presence or validity. -/
theorem C5_maintainer_or_homepage_required
    (doc oof meta : Fields) (s : OofFileSchema)
    (hoof : get_obj doc "oof" = some oof)
    (hs : parse_oof_schema_type oof = .ok s)
    (hmeta : get_obj oof "meta" = some meta)
    (hmaint : (parse_oof_meta_maintainer meta).toOption = none)
    (hhome : get_str meta "homepage" = none) :
    from_over_obj doc =
      .error (.MalformedOofInstruction "oof.meta.maintainer"
        MAINTAINER_OR_HOMEPAGE_REQUIRED) := by
  apply fromOverObj_err_of_meta_err hoof hs
  simp [parse_oof_meta, hmeta, hmaint, hhome]

def noMaintainerDoc : Fields :=
  [("oof", .Obj
      [("schema", .Obj [("type", .Str "system"), ("version", .Str "2021.08.01")]),
       ("meta", .Obj [("license", .Str "MIT")])])]

theorem C5_maintainer_witness :
    from_over_obj noMaintainerDoc =
      .error (.MalformedOofInstruction "oof.meta.maintainer"
        MAINTAINER_OR_HOMEPAGE_REQUIRED) :=
  C5_maintainer_or_homepage_required noMaintainerDoc _ _ _ rfl rfl rfl rfl rfl

/-- C7: when the meta block passes the maintainer-or-homepage check and
`license` reads as a string, metadata parsing succeeds; the license is
classified `Restricted` exactly when the lower-cased string is
`"restricted"` or `"proprietary"`, and otherwise as `SPDXIdentifier`
carrying the original string with its casing intact. -/
theorem C7_license_classification
    (oof meta : Fields) (license : String)
    (hmeta : get_obj oof "meta" = some meta)
    (hp : ((parse_oof_meta_maintainer meta).toOption.isNone &&
      (get_str meta "homepage").isNone) = false)
    (hlic : get_str meta "license" = some license) :
    (lowercase license = "restricted" ∨ lowercase license = "proprietary" →
      ∃ m : OofFileMeta, parse_oof_meta oof = .ok m ∧ m.license = .Restricted) ∧
    (lowercase license ≠ "restricted" → lowercase license ≠ "proprietary" →
      ∃ m : OofFileMeta, parse_oof_meta oof = .ok m ∧
        m.license = .SPDXIdentifier license) := by
  constructor
  · intro hres
    refine ⟨{ maintainer := (parse_oof_meta_maintainer meta).toOption
              homepage := get_str meta "homepage"
              license := .Restricted }, ?_, rfl⟩
    rcases hres with h | h <;> simp [parse_oof_meta, hmeta, hp, hlic, h]
  · intro h1 h2
    refine ⟨{ maintainer := (parse_oof_meta_maintainer meta).toOption
              homepage := get_str meta "homepage"
              license := .SPDXIdentifier license }, ?_, rfl⟩
    simp [parse_oof_meta, hmeta, hp, hlic, h1, h2]

def restrictedMeta : Fields :=
  [("homepage", .Str "https://example.org"), ("license", .Str "ProPrIeTaRy")]

def spdxMeta : Fields :=
  [("homepage", .Str "https://example.org"), ("license", .Str "Apache-2.0")]

theorem C7_license_witness :
    (∃ m : OofFileMeta, parse_oof_meta [("meta", .Obj restrictedMeta)] = .ok m ∧
      m.license = .Restricted) ∧
    (∃ m : OofFileMeta, parse_oof_meta [("meta", .Obj spdxMeta)] = .ok m ∧
      m.license = .SPDXIdentifier "Apache-2.0") :=
  ⟨(C7_license_classification [("meta", .Obj restrictedMeta)] restrictedMeta
      "ProPrIeTaRy" rfl rfl rfl).1 (Or.inr (by decide)),
   (C7_license_classification [("meta", .Obj spdxMeta)] spdxMeta
      "Apache-2.0" rfl rfl rfl).2 (by decide) (by decide)⟩

def usingOriginDoc : Fields :=
  [("using", .Obj [("origin", .Obj [("git", .Str "https://example/repo")])])]

/-- C9: the document fragment `using.origin.git = "https://example/repo"`
with no `bin`, `rev` or `shallow` fields resolves to a table mapping
`"origin"` to a git binding with that upstream, no revision, `shallow`
defaulted to `false` and executable `Discoverable "git"`. -/
theorem C9_using_entry_defaults :
    parse_using usingOriginDoc =
      .ok [("origin", .Git "https://example/repo" none false (.Discoverable "git"))] :=
  rfl

/-- A `using` entry value yields a binding exactly when it is an object
carrying a `git` string; this is the goodness test of the loop at
`system.rs:417-418`. -/
def usingEntryGood (v : OverValue) : Bool :=
  ((asObj v).bind (fun o => get_str o "git")).isSome

theorem parse_using_entries_err_of_first_bad
    (name : String) (v : OverValue) (post : List (String × OverValue))
    (pre : List (String × OverValue))
    (hpre : ∀ p ∈ pre, usingEntryGood p.2 = true)
    (hbad : (asObj v).bind (fun o => get_str o "git") = none) :
    ∀ acc : UsingMap, parse_using_entries (pre ++ (name, v) :: post) acc =
      .error (.MalformedOofInstruction ("using." ++ name)
        COULD_NOT_DETERMINE_REPO_TYPE) := by
  induction pre with
  | nil =>
    intro acc
    cases hv : asObj v with
    | none => simp [parse_using_entries, hv]
    | some o =>
      rw [hv] at hbad
      have hg : get_str o "git" = none := hbad
      simp [parse_using_entries, hv, hg]
  | cons p rest ih =>
    obtain ⟨repo, cv⟩ := p
    intro acc
    have hgood : usingEntryGood cv = true :=
      hpre (repo, cv) (List.mem_cons_self _ rest)
    unfold usingEntryGood at hgood
    cases hv : asObj cv with
    | none => rw [hv] at hgood; simp at hgood
    | some o =>
      rw [hv] at hgood
      have hsome : (get_str o "git").isSome = true := hgood
      rw [Option.isSome_iff_exists] at hsome
      obtain ⟨g, hg⟩ := hsome
      have hrest : ∀ q ∈ rest, usingEntryGood q.2 = true :=
        fun q hq => hpre q (List.mem_cons_of_mem _ hq)
      simp only [List.cons_append, parse_using_entries, hv, hg]
      exact ih hrest _

/-- C6: when the `using` block is an object whose entries are well-formed
up to an entry `(name, v)` where `v` is not object-shaped or lacks a
`git` string field, the source-table resolver fails with the single
collapsed error `MalformedOofInstruction ("using." ++ name)
COULD_NOT_DETERMINE_REPO_TYPE`; the whole resolver aborts, so no partial
table is returned. -/
theorem C6_using_bad_entry_aborts
    (cfg : Fields) (pre : List (String × OverValue)) (name : String)
    (v : OverValue) (post : List (String × OverValue))
    (husing : get_obj cfg "using" = some (pre ++ (name, v) :: post))
    (hpre : ∀ p ∈ pre, usingEntryGood p.2 = true)
    (hbad : asObj v = none ∨ ∃ o, asObj v = some o ∧ get_str o "git" = none) :
    parse_using cfg =
      .error (.MalformedOofInstruction ("using." ++ name)
        COULD_NOT_DETERMINE_REPO_TYPE) := by
  have hbad' : (asObj v).bind (fun o => get_str o "git") = none := by
    rcases hbad with h | ⟨o, ho, hg⟩
    · simp [h]
    · simp [ho, hg]
  simp [parse_using, husing,
    parse_using_entries_err_of_first_bad name v post pre hpre hbad']

def badUsingDoc : Fields :=
  [("using", .Obj
    [("good", .Obj [("git", .Str "https://example/a")]),
     ("broken", .Str "nope")])]

theorem C6_using_witness :
    parse_using badUsingDoc =
      .error (.MalformedOofInstruction "using.broken"
        COULD_NOT_DETERMINE_REPO_TYPE) :=
  C6_using_bad_entry_aborts badUsingDoc
    [("good", .Obj [("git", .Str "https://example/a")])] "broken" (.Str "nope") []
    rfl
    (by intro p hp
        rw [List.mem_singleton] at hp
        subst hp
        rfl)
    (Or.inl rfl)

theorem parse_extends_list_cons (idx : Nat) (e : OverValue) (rest : List OverValue)
    (um : UsingMap) :
    parse_extends_list idx (e :: rest) um =
      match parse_extends_entry idx e um with
      | .error err => .error err
      | .ok record =>
        match parse_extends_list (idx + 1) rest um with
        | .error err => .error err
        | .ok records => .ok (record :: records) := rfl

theorem parse_extends_list_err_of_first_err
    (um : UsingMap) (e : OverValue) (post : List OverValue)
    (err : SchemaParsingError) (pre : List OverValue) :
    ∀ idx : Nat,
    (∀ i (h : i < pre.length),
      ∃ x : Extends, parse_extends_entry (idx + i) (pre.get ⟨i, h⟩) um = .ok x) →
    parse_extends_entry (idx + pre.length) e um = .error err →
    parse_extends_list idx (pre ++ e :: post) um = .error err := by
  induction pre with
  | nil =>
    intro idx _ he
    simp only [List.length_nil, Nat.add_zero] at he
    rw [List.nil_append, parse_extends_list_cons, he]
  | cons p rest ih =>
    intro idx hpre he
    obtain ⟨x, hx⟩ := hpre 0 (Nat.succ_pos rest.length)
    have hx0 : parse_extends_entry idx p um = .ok x := hx
    have hrest : ∀ i (h : i < rest.length),
        ∃ y : Extends, parse_extends_entry (idx + 1 + i) (rest.get ⟨i, h⟩) um = .ok y := by
      intro i h
      obtain ⟨y, hy⟩ := hpre (i + 1) (Nat.succ_lt_succ h)
      refine ⟨y, ?_⟩
      have hidx : idx + 1 + i = idx + (i + 1) := by omega
      rw [hidx]
      exact hy
    have he' : parse_extends_entry (idx + 1 + rest.length) e um = .error err := by
      have hidx : idx + 1 + rest.length = idx + (p :: rest).length := by
        simp only [List.length_cons]
        omega
      rw [hidx]
      exact he
    rw [List.cons_append, parse_extends_list_cons, hx0, ih (idx + 1) hrest he']

/-- C2: when every `extends` element before index `i` parses and the
element at `i` is an object whose `repo` reads as a string that is not a
key of the already-built source table, compilation fails with
`ExtendingNonExistantRepo` carrying that string. No hypothesis
constrains the entry's `path` (or any other) field, so the referential
check fires before `path` is read, even when `path` is malformed. -/
theorem C2_extending_nonexistent_repo
    (doc oof : Fields) (s : OofFileSchema) (m : OofFileMeta) (um : UsingMap)
    (pre : List OverValue) (entry : Fields) (post : List OverValue) (r : String)
    (hoof : get_obj doc "oof" = some oof)
    (hs : parse_oof_schema_type oof = .ok s)
    (hm : parse_oof_meta oof = .ok m)
    (hu : parse_using doc = .ok um)
    (hext : get_arr doc "extends" = some (pre ++ .Obj entry :: post))
    (hpre : ∀ i (h : i < pre.length),
      ∃ x : Extends, parse_extends_entry i (pre.get ⟨i, h⟩) um = .ok x)
    (hrepo : get_str entry "repo" = some r)
    (hdangling : umFind um r = none) :
    from_over_obj doc = .error (.ExtendingNonExistantRepo r) := by
  apply fromOverObj_err_of_extends_err hoof hs hm hu
  have hentry : parse_extends_entry (0 + pre.length) (.Obj entry) um =
      .error (.ExtendingNonExistantRepo r) := by
    simp [parse_extends_entry, asObj, hrepo, hdangling]
  have hpre' : ∀ i (h : i < pre.length),
      ∃ x : Extends, parse_extends_entry (0 + i) (pre.get ⟨i, h⟩) um = .ok x := by
    intro i h
    simpa using hpre i h
  simp [parse_extends,  hext,
    parse_extends_list_err_of_first_err um (.Obj entry) post _ pre 0 hpre' hentry]

def danglingRepoDoc : Fields :=
  [("oof", .Obj
      [("schema", .Obj [("type", .Str "system"), ("version", .Str "2021.08.01")]),
       ("meta", .Obj [("homepage", .Str "https://example.org"), ("license", .Str "MIT")])]),
   ("using", .Obj [("origin", .Obj [("git", .Str "https://example/repo")])]),
   ("extends", .Arr [.Obj [("repo", .Str "missing"), ("path", .Int 3)]])]

theorem C2_extending_witness :
    from_over_obj danglingRepoDoc = .error (.ExtendingNonExistantRepo "missing") :=
  C2_extending_nonexistent_repo danglingRepoDoc _ _ _
    [("origin", .Git "https://example/repo" none false (.Discoverable "git"))]
    [] [("repo", .Str "missing"), ("path", .Int 3)] [] "missing"
    rfl rfl rfl rfl rfl (by intro i h; simp at h) rfl rfl

/-- A value that is not an array of strings: either no array at all, or an
array with at least one non-string element. -/
def notStringArray (v : OverValue) : Prop :=
  (∀ l : List OverValue, v ≠ .Arr l) ∨
  (∃ l : List OverValue, v = .Arr l ∧ ∃ x ∈ l, ∀ s : String, x ≠ .Str s)

theorem asStr_eq_none_of_not_str {x : OverValue} (h : ∀ s : String, x ≠ .Str s) :
    asStr x = none := by
  cases x with
  | Str s => exact absurd rfl (h s)
  | _ => rfl

theorem collectStrs_eq_none_of_mem {l : List OverValue} {x : OverValue}
    (hx : x ∈ l) (hxs : ∀ s : String, x ≠ .Str s) : collectStrs l = none := by
  induction l with
  | nil => cases hx
  | cons a rest ih =>
    rcases List.mem_cons.mp hx with h | h
    · subst h
      simp [collectStrs, asStr_eq_none_of_not_str hxs]
    · cases ha : asStr a with
      | none => simp [collectStrs, ha]
      | some s => simp [collectStrs, ha, ih h]

theorem bind_collectStrs_eq_none {v : OverValue} (h : notStringArray v) :
    (asArr v).bind collectStrs = none := by
  rcases h with h | ⟨l, hl, x, hx, hxs⟩
  · have : asArr v = none := by
      cases v with
      | Arr l => exact absurd rfl (h l)
      | _ => rfl
    simp [this]
  · subst hl
    simp [asArr, collectStrs_eq_none_of_mem hx hxs]

/-- C8: in an `extends` entry whose `repo` resolves in the source table
and whose `path` reads as a string, a `pick` (or `omit`) field whose
value is not an array of strings degrades that optional field to `none`
while the declaration itself still parses successfully. -/
theorem C8_pick_omit_degrade_to_none
    (idx : Nat) (um : UsingMap) (entry : Fields) (r : String) (u : Using) (p : String)
    (hrepo : get_str entry "repo" = some r)
    (hfound : umFind um r = some u)
    (hpath : get_str entry "path" = some p) :
    (∀ v, lookupField entry "pick" = some v → notStringArray v →
      ∃ x : Extends, parse_extends_entry idx (.Obj entry) um = .ok x ∧ x.pick = none) ∧
    (∀ v, lookupField entry "omit" = some v → notStringArray v →
      ∃ x : Extends, parse_extends_entry idx (.Obj entry) um = .ok x ∧
        x.«omit» = none) := by
  have hentry : parse_extends_entry idx (.Obj entry) um = .ok
      { repo := u
        path := p
        pick := (get_arr entry "pick").bind collectStrs
        «omit» := (get_arr entry "omit").bind collectStrs } := by
    simp [parse_extends_entry, asObj, hrepo, hfound, hpath]
  constructor
  · intro v hv hbad
    refine ⟨_, hentry, ?_⟩
    simp [get_arr, hv, bind_collectStrs_eq_none hbad]
  · intro v hv hbad
    refine ⟨_, hentry, ?_⟩
    simp [get_arr, hv, bind_collectStrs_eq_none hbad]

def originUM : UsingMap :=
  [("origin", .Git "https://example/repo" none false (.Discoverable "git"))]

def badSelEntry : Fields :=
  [("repo", .Str "origin"), ("path", .Str "base.oof"),
   ("pick", .Int 5), ("omit", .Arr [.Int 1])]

theorem C8_pick_omit_witness :
    (∃ x : Extends, parse_extends_entry 0 (.Obj badSelEntry) originUM = .ok x ∧
      x.pick = none) ∧
    (∃ x : Extends, parse_extends_entry 0 (.Obj badSelEntry) originUM = .ok x ∧
      x.«omit» = none) :=
  ⟨(C8_pick_omit_degrade_to_none 0 originUM badSelEntry "origin"
      (.Git "https://example/repo" none false (.Discoverable "git")) "base.oof"
      rfl rfl rfl).1 (.Int 5) rfl
      (Or.inl (fun _l h => OverValue.noConfusion h)),
   (C8_pick_omit_degrade_to_none 0 originUM badSelEntry "origin"
      (.Git "https://example/repo" none false (.Discoverable "git")) "base.oof"
      rfl rfl rfl).2 (.Arr [.Int 1]) rfl
      (Or.inr ⟨[.Int 1], rfl, .Int 1, List.mem_singleton.mpr rfl,
        fun _s h => OverValue.noConfusion h⟩)⟩

theorem parse_extends_list_ok_spec
    (um : UsingMap) (elems : List OverValue) :
    ∀ (idx : Nat) (recs : List Extends),
    parse_extends_list idx elems um = .ok recs →
    recs.length = elems.length ∧
    ∀ i (h1 : i < elems.length) (h2 : i < recs.length),
      parse_extends_entry (idx + i) (elems.get ⟨i, h1⟩) um = .ok (recs.get ⟨i, h2⟩) := by
  induction elems with
  | nil =>
    intro idx recs h
    simp only [parse_extends_list] at h
    cases h
    exact ⟨rfl, fun i h1 => absurd h1 (Nat.not_lt_zero i)⟩
  | cons e rest ih =>
    intro idx recs h
    rw [parse_extends_list_cons] at h
    cases he : parse_extends_entry idx e um with
    | error err => rw [he] at h; cases h
    | ok record =>
      rw [he] at h
      cases hr : parse_extends_list (idx + 1) rest um with
      | error err => rw [hr] at h; cases h
      | ok records =>
        rw [hr] at h
        cases h
        obtain ⟨hlen, hall⟩ := ih (idx + 1) records hr
        refine ⟨by simp [hlen], ?_⟩
        intro i h1 h2
        cases i with
        | zero =>
          have : idx + 0 = idx := Nat.add_zero idx
          rw [this]
          exact he
        | succ j =>
          have hj1 : j < rest.length := Nat.lt_of_succ_lt_succ h1
          have hj2 : j < records.length := Nat.lt_of_succ_lt_succ h2
          have := hall j hj1 hj2
          have hidx : idx + (j + 1) = idx + 1 + j := by omega
          rw [hidx]
          exact this

/-- C10: whenever the `extends` array parses successfully, the output has
exactly one inheritance record per array element, each record being the
parse of the element at the same index — document order is preserved and
repeated declarations are not deduplicated. -/
theorem C10_extends_order_preserved
    (cfg : Fields) (um : UsingMap) (elems : List OverValue) (recs : List Extends)
    (hext : get_arr cfg "extends" = some elems)
    (hok : parse_extends cfg um = .ok recs) :
    recs.length = elems.length ∧
    ∀ i (h1 : i < elems.length) (h2 : i < recs.length),
      parse_extends_entry i (elems.get ⟨i, h1⟩) um = .ok (recs.get ⟨i, h2⟩) := by
  rw [parse_extends] at hok
  rw [hext] at hok
  obtain ⟨hlen, hall⟩ := parse_extends_list_ok_spec um elems 0 recs hok
  refine ⟨hlen, fun i h1 h2 => ?_⟩
  have := hall i h1 h2
  rwa [Nat.zero_add] at this

def dupEntry : OverValue :=
  .Obj [("repo", .Str "origin"), ("path", .Str "base.oof")]

def dupExtendsDoc : Fields :=
  [("using", .Obj [("origin", .Obj [("git", .Str "https://example/repo")])]),
   ("extends", .Arr [dupEntry, dupEntry])]

def dupRecord : Extends :=
  { repo := .Git "https://example/repo" none false (.Discoverable "git")
    path := "base.oof"
    pick := none
    «omit» := none }

theorem C10_extends_witness :
    ([dupRecord, dupRecord] : List Extends).length =
      ([dupEntry, dupEntry] : List OverValue).length ∧
    ∀ i (h1 : i < ([dupEntry, dupEntry] : List OverValue).length)
      (h2 : i < ([dupRecord, dupRecord] : List Extends).length),
      parse_extends_entry i (([dupEntry, dupEntry] : List OverValue).get ⟨i, h1⟩)
          originUM =
        .ok (([dupRecord, dupRecord] : List Extends).get ⟨i, h2⟩) :=
  C10_extends_order_preserved dupExtendsDoc originUM [dupEntry, dupEntry]
    [dupRecord, dupRecord] rfl rfl

end Oof
